import Mathlib

/-!
Shallow embedding of the local-sandbox process supervisor
(`LocalSandboxRuntime`, `findAvailablePort` in `src/unnamed/part_006`) and of
the file-system-backed document store (`LocalStorage` in
`packages/db/src/local-storage.ts`) of the onlook-dev repository, together
with theorems settling the specification claims about them.

Conventions of the embedding:
* asynchronous filesystem / socket effects are abstracted into explicit
  oracles (`avail : Nat → Bool` for a trial TCP bind, association lists for
  the files a read would see);
* the JavaScript event loop's run-to-completion semantics is modelled by a
  step relation over atomic segments (the code between two `await`
  suspension points executes with no interleaving);
* machine timestamps (`Date.now`, ISO strings) are carried as `Nat` keys or
  opaque `String`s interpreted through a parameter `dateTime : String → Int`
  standing for `new Date(s).getTime()`.
-/

namespace Spec2Proof

/-! ## Port allocation: `findAvailablePort` (src/unnamed/part_006, lines 121-140)

The source probes ports sequentially:

    let port = startPort;
    for (let i = 0; i < attempts; i++) {
        const available = await ...trial bind of `port`...;
        if (available) return port;
        port += 1;
    }
    return port;

A trial bind of `net.createServer().listen(port, '127.0.0.1')` is abstracted
as the availability oracle `avail : Nat → Bool`. -/

/-- Loop of `findAvailablePort`, recursing on the remaining attempt count.
On a successful probe the current `port` is returned; otherwise the port is
incremented.  When the loop exhausts its attempts the (already incremented)
`port` is returned. -/
def findAvailablePort (avail : Nat → Bool) : Nat → Nat → Nat
  | port, 0 => port
  | port, Nat.succ attempts =>
      if avail port then port else findAvailablePort avail (port + 1) attempts

/-- Default attempt count of `findAvailablePort(startPort, attempts = 20)`. -/
def defaultPortAttempts : Nat := 20

/-! ### Theorems about `findAvailablePort` -/

/-- C8: `findAvailablePort` returns the first port at or above the preferred
port whose trial bind succeeds, provided some port in the probed window is
available: if the `k`-th probed port is the first available one and
`k < attempts`, the result is `preferred + k`. -/
theorem findAvailablePort_first_free (avail : Nat → Bool)
    (start attempts k : Nat) (hk : k < attempts)
    (hfree : avail (start + k) = true)
    (hbusy : ∀ j, j < k → avail (start + j) = false) :
    findAvailablePort avail start attempts = start + k := by
  induction k generalizing start attempts with
  | zero =>
      obtain ⟨m, rfl⟩ : ∃ m, attempts = m + 1 :=
        ⟨attempts - 1, by omega⟩
      simp only [Nat.add_zero] at hfree
      simp [findAvailablePort, hfree]
  | succ k ih =>
      obtain ⟨m, rfl⟩ : ∃ m, attempts = m + 1 :=
        ⟨attempts - 1, by omega⟩
      have h0 : avail start = false := by
        have := hbusy 0 (by omega)
        simpa using this
      have hstep : findAvailablePort avail start (m + 1)
          = findAvailablePort avail (start + 1) m := by
        simp [findAvailablePort, h0]
      rw [hstep]
      have hres : findAvailablePort avail (start + 1) m = start + 1 + k := by
        refine ih (start + 1) m (by omega) ?_ ?_
        · have : start + 1 + k = start + (k + 1) := by omega
          rw [this]; exact hfree
        · intro j hj
          have : start + 1 + j = start + (j + 1) := by omega
          rw [this]
          exact hbusy (j + 1) (by omega)
      rw [hres]
      omega

/-- Closed instance for `findAvailablePort_first_free`, realizing the two
scenarios of the claim: with port 3000 free the result is 3000; with ports
3000-3004 occupied and everything from 3005 on free the result is 3005. -/
theorem findAvailablePort_first_free_witness :
    findAvailablePort (fun _ => true) 3000 20 = 3000 ∧
    findAvailablePort (fun p => decide (3005 ≤ p)) 3000 20 = 3005 := by
  constructor
  · exact findAvailablePort_first_free (fun _ => true) 3000 20 0 (by decide)
      (by decide) (by intro j hj; omega)
  · exact findAvailablePort_first_free (fun p => decide (3005 ≤ p)) 3000 20 5
      (by decide) (by decide) (by decide)

/-- The original form of C2 is false: when every probe fails,
`findAvailablePort(3000, 20)` returns `3020 = preferred + maxAttempts`, one
past the last probed port `3019 = preferred + maxAttempts - 1`. -/
theorem findAvailablePort_exhausted_counterexample :
    findAvailablePort (fun _ => false) 3000 20 ≠ 3000 + 20 - 1 ∧
    findAvailablePort (fun _ => false) 3000 20 = 3020 := by
  constructor <;> decide

/-- C2 (amended): when every one of the `maxAttempts` probed ports
(`preferred`, ..., `preferred + maxAttempts - 1`) fails its trial bind,
`findAvailablePort` returns `preferred + maxAttempts` — the port one past
the last probed one — rather than throwing. -/
theorem findAvailablePort_exhausted (avail : Nat → Bool) (start attempts : Nat)
    (hbusy : ∀ j, j < attempts → avail (start + j) = false) :
    findAvailablePort avail start attempts = start + attempts := by
  induction attempts generalizing start with
  | zero => simp [findAvailablePort]
  | succ m ih =>
      have h0 : avail start = false := by
        have := hbusy 0 (by omega)
        simpa using this
      have hstep : findAvailablePort avail start (m + 1)
          = findAvailablePort avail (start + 1) m := by
        simp [findAvailablePort, h0]
      rw [hstep]
      have hres : findAvailablePort avail (start + 1) m = start + 1 + m := by
        refine ih (start + 1) ?_
        intro j hj
        have : start + 1 + j = start + (j + 1) := by omega
        rw [this]
        exact hbusy (j + 1) (by omega)
      rw [hres]
      omega

/-- Closed instance of `findAvailablePort_exhausted` at the all-busy oracle. -/
theorem findAvailablePort_exhausted_witness :
    findAvailablePort (fun _ => false) 3000 20 = 3000 + 20 :=
  findAvailablePort_exhausted (fun _ => false) 3000 20 (fun _ _ => rfl)

/-! ## Log ring buffer: `LocalSandboxRuntime.appendLog` / `getLogs`
(src/unnamed/part_006, lines 208-219 and 317-322) -/

/-- `type LogLevel = 'info' | 'warn' | 'error'`. -/
inductive LogLevel where
  | info
  | warn
  | error
deriving DecidableEq, Repr

/-- `LocalSandboxLogEntry { level, message, timestamp }`; the `Date`
timestamp is carried as a `Nat` tick. -/
structure LocalSandboxLogEntry where
  level : LogLevel
  message : String
  timestamp : Nat
deriving DecidableEq, Repr

/-- `appendLog`: push the new entry, then
`if (logBuffer.length > maxLogLines) logBuffer.splice(0, length - maxLogLines)`;
`splice(0, k)` removes the `k` oldest entries from the front. -/
def appendLog (maxLogLines : Nat) (logBuffer : List LocalSandboxLogEntry)
    (entry : LocalSandboxLogEntry) : List LocalSandboxLogEntry :=
  let buf := logBuffer ++ [entry]
  if maxLogLines < buf.length then buf.drop (buf.length - maxLogLines) else buf

/-- `getLogs(level = 'all')`: the whole buffer for `'all'` (here `none`),
otherwise the entries matching the requested level. -/
def getLogs (levelFilter : Option LogLevel)
    (logBuffer : List LocalSandboxLogEntry) : List LocalSandboxLogEntry :=
  match levelFilter with
  | none => logBuffer
  | some lvl => logBuffer.filter (fun e => e.level == lvl)

/-- `DEFAULT_MAX_LOG_LINES = 200`. -/
def defaultMaxLogLines : Nat := 200

/-! ### Lemmas about the buffer -/

theorem appendLog_foldl_eq_drop (maxLogLines : Nat) :
    ∀ es : List LocalSandboxLogEntry,
      es.foldl (appendLog maxLogLines) [] = es.drop (es.length - maxLogLines) := by
  intro es
  induction es using List.reverseRecOn with
  | nil => simp
  | append_singleton es e ih =>
      rw [List.foldl_append]
      simp only [List.foldl_cons, List.foldl_nil]
      rw [ih]
      unfold appendLog
      simp only [List.length_append, List.length_drop, List.length_singleton]
      by_cases hle : maxLogLines ≤ es.length
      · have hcond : maxLogLines < es.length - (es.length - maxLogLines) + 1 := by omega
        rw [if_pos hcond]
        rcases Nat.eq_zero_or_pos maxLogLines with hz | hpos
        · subst hz
          simp only [Nat.sub_zero]
          rw [List.drop_length]
          have h1 : es.length + 1 - 0 = (List.length es + 1) := by omega
          simp [List.drop_eq_nil_of_le]
        · have hlen : es.length - (es.length - maxLogLines) + 1 - maxLogLines = 1 := by
            omega
          rw [hlen]
          have hdlen : 1 ≤ (es.drop (es.length - maxLogLines)).length := by
            rw [List.length_drop]; omega
          rw [List.drop_append_of_le_length hdlen, List.drop_drop]
          have h2 : (es ++ [e]).drop (es.length + 1 - maxLogLines)
              = es.drop (es.length + 1 - maxLogLines) ++ [e] := by
            refine List.drop_append_of_le_length ?_
            omega
          rw [h2]
          have h3 : es.length - maxLogLines + 1 = es.length + 1 - maxLogLines := by
            omega
          rw [h3]
      · have hd0 : es.length - maxLogLines = 0 := by omega
        rw [hd0]
        simp only [List.drop_zero]
        have hcond : ¬ maxLogLines < es.length - 0 + 1 := by omega
        rw [if_neg hcond]
        have h4 : es.length + 1 - maxLogLines = 0 := by omega
        rw [h4, List.drop_zero]

/-- C4: for every sequence of appends into the capacity-200 buffer the
buffer length never exceeds 200, and after appending 250 entries the buffer
holds exactly the most recent 200 entries, oldest first (FIFO eviction). -/
theorem appendLog_cap200_fifo :
    (∀ es : List LocalSandboxLogEntry,
        (es.foldl (appendLog 200) []).length ≤ 200) ∧
    (∀ es : List LocalSandboxLogEntry, es.length = 250 →
        es.foldl (appendLog 200) [] = es.drop 50) := by
  constructor
  · intro es
    rw [appendLog_foldl_eq_drop, List.length_drop]
    omega
  · intro es h250
    rw [appendLog_foldl_eq_drop, h250]

/-- Closed instance of `appendLog_cap200_fifo`: 250 concrete log lines. -/
theorem appendLog_cap200_fifo_witness :
    ((List.range 250).map
        (fun i => ({ level := .info, message := "", timestamp := i }
          : LocalSandboxLogEntry))).foldl (appendLog 200) []
      = ((List.range 250).map
        (fun i => ({ level := .info, message := "", timestamp := i }
          : LocalSandboxLogEntry))).drop 50 :=
  appendLog_cap200_fifo.2 _ (by simp)

/-! ## Single-flight start: `LocalSandboxRuntime.ensureStarted` /
`spawnProcess` (src/unnamed/part_006, lines 221-274)

    async ensureStarted() {
        if (this.process) return;
        if (this.startPromise) { await this.startPromise; return; }
        this.startPromise = this.spawnProcess();
        try { await this.startPromise; } finally { this.startPromise = null; }
    }

The event loop runs every synchronous segment between `await` suspension
points to completion, so the body of `ensureStarted` up to its `await` —
checking `process`, checking `startPromise`, storing the fresh promise — is
one atomic segment.  `spawnProcess` suspends on directory creation and port
probing before executing `spawn(...)` and `this.process = child` in one
final segment. -/

/-- Supervisor state relevant to start-up, mirroring the fields
`process` / `startPromise` plus counters instrumenting the run:
`spawnPending` records that `spawnProcess` was invoked but its final
segment (the actual `spawn`) has not run yet, `spawns` counts child
processes spawned, `waiters` counts callers parked on the memoized
`startPromise`. -/
structure StartState where
  processSet : Bool
  startInFlight : Bool
  spawnPending : Bool
  spawns : Nat
  waiters : Nat
deriving DecidableEq, Repr

/-- Atomic segments that can interleave during start-up. -/
inductive StartEvent where
  | enter
  | spawnExec
  | resolve
deriving DecidableEq, Repr

/-- One atomic segment.
`enter` is the synchronous prefix of one `ensureStarted()` call: return if
the process runs, park on an in-flight `startPromise`, otherwise store a
fresh promise (whose body is now pending).  `spawnExec` is the final
segment of `spawnProcess` (`spawn(...)`, `this.process = child`, one child
spawned).  `resolve` is the resolution of the memoized promise: all parked
callers resume and the initiator's `finally` clears `startPromise`. -/
def startStep (s : StartState) : StartEvent → StartState
  | .enter =>
      if s.processSet then s
      else if s.startInFlight then { s with waiters := s.waiters + 1 }
      else { s with startInFlight := true, spawnPending := true }
  | .spawnExec =>
      if s.startInFlight && s.spawnPending then
        { s with processSet := true, spawnPending := false,
                 spawns := s.spawns + 1 }
      else s
  | .resolve =>
      if s.startInFlight && !s.spawnPending then
        { s with startInFlight := false, waiters := 0 }
      else s

/-- A freshly constructed supervisor: no process, no in-flight start. -/
def startOrigin : StartState :=
  { processSet := false, startInFlight := false, spawnPending := false,
    spawns := 0, waiters := 0 }

/-- Run a whole interleaving from the fresh supervisor. -/
def startExec (events : List StartEvent) : StartState :=
  events.foldl startStep startOrigin

/-- Inductive invariant: the spawn count plus the pending spawn equals one
exactly when a start is in flight or the process field is set, and a
completed in-flight start implies the process field is set. -/
def StartInv (s : StartState) : Prop :=
  s.spawns + (if s.spawnPending then 1 else 0)
      = (if s.startInFlight || s.processSet then 1 else 0) ∧
  (s.startInFlight = true → s.spawnPending = false → s.processSet = true)

theorem startStep_preserves_inv (s : StartState) (e : StartEvent)
    (h : StartInv s) : StartInv (startStep s e) := by
  obtain ⟨p, f, sp, n, w⟩ := s
  cases e <;> cases p <;> cases f <;> cases sp <;>
    simp_all [StartInv, startStep]

theorem startExec_inv_aux (events : List StartEvent) :
    ∀ s : StartState, StartInv s → StartInv (events.foldl startStep s) := by
  induction events with
  | nil => intro s h; simpa using h
  | cons e es ih =>
      intro s h
      simpa using ih (startStep s e) (startStep_preserves_inv s e h)

theorem startExec_inv (events : List StartEvent) :
    StartInv (startExec events) :=
  startExec_inv_aux events startOrigin (by simp [StartInv, startOrigin])

theorem startExec_enter_parks (k : Nat) :
    ∀ s : StartState, s.processSet = false → s.startInFlight = true →
      (List.replicate k StartEvent.enter).foldl startStep s
        = { s with waiters := s.waiters + k } := by
  induction k with
  | zero => intro s _ _; simp
  | succ k ih =>
      intro s hp hf
      rw [List.replicate_succ, List.foldl_cons]
      have hstep : startStep s .enter = { s with waiters := s.waiters + 1 } := by
        simp [startStep, hp, hf]
      rw [hstep, ih _ (by simp [hp]) (by simp [hf])]
      simp
      omega

/-- C1: for `n ≥ 1` concurrent `ensureStarted()` calls issued before the
process is running: after all `n` synchronous prefixes have run, exactly one
caller has stored the in-flight start promise, the other `n - 1` are parked
on that same promise and no process is spawned yet; completing the start
spawns exactly one child; in every interleaving of segments whatsoever at
most one child is spawned; and an `ensureStarted` prefix executed while the
process is already running changes nothing. -/
theorem ensureStarted_single_flight (n : Nat) (hn : 1 ≤ n) :
    startExec (List.replicate n .enter)
        = { processSet := false, startInFlight := true, spawnPending := true,
            spawns := 0, waiters := n - 1 } ∧
    startExec (List.replicate n .enter ++ [.spawnExec, .resolve])
        = { processSet := true, startInFlight := false, spawnPending := false,
            spawns := 1, waiters := 0 } ∧
    (∀ events : List StartEvent, (startExec events).spawns ≤ 1) ∧
    (∀ s : StartState, s.processSet = true → startStep s .enter = s) := by
  have hmid : startExec (List.replicate n .enter)
      = { processSet := false, startInFlight := true, spawnPending := true,
          spawns := 0, waiters := n - 1 } := by
    obtain ⟨m, rfl⟩ : ∃ m, n = m + 1 := ⟨n - 1, by omega⟩
    unfold startExec
    rw [List.replicate_succ, List.foldl_cons]
    have hstep : startStep startOrigin .enter
        = { processSet := false, startInFlight := true, spawnPending := true,
            spawns := 0, waiters := 0 } := by
      simp [startStep, startOrigin]
    rw [hstep, startExec_enter_parks m _ rfl rfl]
    simp
  refine ⟨hmid, ?_, ?_, ?_⟩
  · unfold startExec
    rw [List.foldl_append]
    have : (List.replicate n StartEvent.enter).foldl startStep startOrigin
        = { processSet := false, startInFlight := true, spawnPending := true,
            spawns := 0, waiters := n - 1 } := hmid
    rw [this]
    simp [startStep]
  · intro events
    have h := (startExec_inv events).1
    generalize startExec events = s at h ⊢
    obtain ⟨p, f, sp, cnt, w⟩ := s
    cases p <;> cases f <;> cases sp <;> simp_all
  · intro s hp
    obtain ⟨p, f, sp, cnt, w⟩ := s
    simp only at hp
    subst hp
    simp [startStep]

/-- Closed instance of `ensureStarted_single_flight` at `n = 3`. -/
theorem ensureStarted_single_flight_witness :
    startExec (List.replicate 3 .enter)
        = { processSet := false, startInFlight := true, spawnPending := true,
            spawns := 0, waiters := 2 } ∧
    startExec (List.replicate 3 .enter ++ [.spawnExec, .resolve])
        = { processSet := true, startInFlight := false, spawnPending := false,
            spawns := 1, waiters := 0 } := by
  have h := ensureStarted_single_flight 3 (by decide)
  exact ⟨h.1, h.2.1⟩

/-! ## Single-flight stop: `LocalSandboxRuntime.stop`
(src/unnamed/part_006, lines 276-309)

    async stop() {
        if (!this.process) return;
        if (this.stopPromise) { await this.stopPromise; return; }
        this.stopPromise = new Promise((resolve) => {
            ... child.once('exit', onExit); child.kill('SIGTERM');
            setTimeout(() => { if (this.process) child.kill('SIGKILL'); }, 5000);
        });
        try { await this.stopPromise; } finally { this.stopPromise = null; }
    }

The promise executor runs synchronously inside `stop`'s first segment, so
the initiating caller's checks, the `SIGTERM`, and arming the 5-second
timer are one atomic segment.  The `'exit'` handler sets `process = null`
and resolves the stop promise; the timer callback sends `SIGKILL` only if
the process is still set. -/

/-- Supervisor state relevant to shutdown: the fields `process` /
`stopPromise`, the pending 5-second timer, and counters for the signals
sent and the callers parked on the in-flight stop promise. -/
structure StopState where
  processSet : Bool
  stopInFlight : Bool
  timerArmed : Bool
  sigterms : Nat
  sigkills : Nat
  waiters : Nat
deriving DecidableEq, Repr

/-- Atomic segments that can interleave during shutdown. -/
inductive StopEvent where
  | enter
  | procExit
  | timerFire
deriving DecidableEq, Repr

/-- One atomic segment.  `enter` is the synchronous prefix of one `stop()`
call: resolve immediately when no process runs, park on an in-flight stop
promise, otherwise send `SIGTERM` once and arm the timer.  `procExit` is
the child `'exit'` event: the handler in `spawnProcess` clears `process`
and, when a stop is in flight, `onExit` resolves the promise (resuming all
parked callers, after which the initiator's `finally` clears
`stopPromise`).  `timerFire` is the 5-second timeout callback, which sends
`SIGKILL` only if the process is still set. -/
def stopStep (s : StopState) : StopEvent → StopState
  | .enter =>
      if s.processSet then
        if s.stopInFlight then { s with waiters := s.waiters + 1 }
        else { s with stopInFlight := true, timerArmed := true,
                      sigterms := s.sigterms + 1 }
      else s
  | .procExit =>
      if s.processSet then
        if s.stopInFlight then
          { s with processSet := false, stopInFlight := false, waiters := 0 }
        else { s with processSet := false }
      else s
  | .timerFire =>
      if s.timerArmed then
        { s with timerArmed := false,
                 sigkills := s.sigkills + (if s.processSet then 1 else 0) }
      else s

/-- A supervisor with a running process and no stop in flight. -/
def stopOrigin : StopState :=
  { processSet := true, stopInFlight := false, timerArmed := false,
    sigterms := 0, sigkills := 0, waiters := 0 }

/-- Run a whole interleaving from the running supervisor. -/
def stopExec (events : List StopEvent) : StopState :=
  events.foldl stopStep stopOrigin

/-- Inductive invariant: a running process with no stop in flight has seen
no `SIGTERM` yet, at most one `SIGTERM` is ever sent, and the `SIGKILL`
count (plus the armed timer that may still produce one) never exceeds the
`SIGTERM` count. -/
def StopInv (s : StopState) : Prop :=
  (s.processSet = true → s.stopInFlight = false → s.sigterms = 0) ∧
  s.sigterms ≤ 1 ∧
  s.sigkills + (if s.timerArmed then 1 else 0) ≤ s.sigterms

theorem stopStep_preserves_inv (s : StopState) (e : StopEvent)
    (h : StopInv s) : StopInv (stopStep s e) := by
  obtain ⟨p, f, t, nt, nk, w⟩ := s
  cases e <;> cases p <;> cases f <;> cases t <;>
    simp_all [StopInv, stopStep] <;> omega

theorem stopExec_inv_aux (events : List StopEvent) :
    ∀ s : StopState, StopInv s → StopInv (events.foldl stopStep s) := by
  induction events with
  | nil => intro s h; simpa using h
  | cons e es ih =>
      intro s h
      simpa using ih (stopStep s e) (stopStep_preserves_inv s e h)

theorem stopExec_inv (events : List StopEvent) :
    StopInv (stopExec events) :=
  stopExec_inv_aux events stopOrigin (by simp [StopInv, stopOrigin])

theorem stopExec_enter_parks (k : Nat) :
    ∀ s : StopState, s.processSet = true → s.stopInFlight = true →
      (List.replicate k StopEvent.enter).foldl stopStep s
        = { s with waiters := s.waiters + k } := by
  induction k with
  | zero => intro s _ _; simp
  | succ k ih =>
      intro s hp hf
      rw [List.replicate_succ, List.foldl_cons]
      have hstep : stopStep s .enter = { s with waiters := s.waiters + 1 } := by
        simp [stopStep, hp, hf]
      rw [hstep, ih _ (by simp [hp]) (by simp [hf])]
      simp
      omega

/-- C3: `stop()` is idempotent.  A `stop` prefix executed while no process
runs changes nothing (it resolves immediately without signaling); for
`n ≥ 1` concurrent `stop()` calls on a running process, after all `n`
prefixes exactly one `SIGTERM` was sent and the other `n - 1` callers are
parked on the same in-flight promise; once the process exits, a later timer
firing sends no `SIGKILL`; and in every interleaving whatsoever the process
receives at most one `SIGTERM` and at most one `SIGKILL`. -/
theorem stop_idempotent (n : Nat) (hn : 1 ≤ n) :
    (∀ s : StopState, s.processSet = false → stopStep s .enter = s) ∧
    stopExec (List.replicate n .enter)
        = { processSet := true, stopInFlight := true, timerArmed := true,
            sigterms := 1, sigkills := 0, waiters := n - 1 } ∧
    stopExec (List.replicate n .enter ++ [.procExit, .timerFire])
        = { processSet := false, stopInFlight := false, timerArmed := false,
            sigterms := 1, sigkills := 0, waiters := 0 } ∧
    (∀ events : List StopEvent,
        (stopExec events).sigterms ≤ 1 ∧ (stopExec events).sigkills ≤ 1) := by
  have hmid : stopExec (List.replicate n .enter)
      = { processSet := true, stopInFlight := true, timerArmed := true,
          sigterms := 1, sigkills := 0, waiters := n - 1 } := by
    obtain ⟨m, rfl⟩ : ∃ m, n = m + 1 := ⟨n - 1, by omega⟩
    unfold stopExec
    rw [List.replicate_succ, List.foldl_cons]
    have hstep : stopStep stopOrigin .enter
        = { processSet := true, stopInFlight := true, timerArmed := true,
            sigterms := 1, sigkills := 0, waiters := 0 } := by
      simp [stopStep, stopOrigin]
    rw [hstep, stopExec_enter_parks m _ rfl rfl]
    simp
  refine ⟨?_, hmid, ?_, ?_⟩
  · intro s hp
    obtain ⟨p, f, t, nt, nk, w⟩ := s
    simp only at hp
    subst hp
    simp [stopStep]
  · unfold stopExec
    rw [List.foldl_append]
    have : (List.replicate n StopEvent.enter).foldl stopStep stopOrigin
        = { processSet := true, stopInFlight := true, timerArmed := true,
            sigterms := 1, sigkills := 0, waiters := n - 1 } := hmid
    rw [this]
    simp [stopStep]
  · intro events
    have h := stopExec_inv events
    generalize stopExec events = s at h ⊢
    obtain ⟨p, f, t, nt, nk, w⟩ := s
    rcases h with ⟨h1, h2, h3⟩
    cases t <;> simp_all <;> omega

/-- Closed instance of `stop_idempotent` at `n = 2` (two concurrent
`stop()` callers). -/
theorem stop_idempotent_witness :
    stopExec (List.replicate 2 .enter)
        = { processSet := true, stopInFlight := true, timerArmed := true,
            sigterms := 1, sigkills := 0, waiters := 1 } ∧
    stopExec (List.replicate 2 .enter ++ [.procExit, .timerFire])
        = { processSet := false, stopInFlight := false, timerArmed := false,
            sigterms := 1, sigkills := 0, waiters := 0 } := by
  have h := stop_idempotent 2 (by decide)
  exact ⟨h.2.1, h.2.2.1⟩

/-! ## Document store: project name handling
(`LocalStorage.normalizeProjectName` / `toDirectoryName`,
packages/db/src/local-storage.ts, lines 620-635)

    private normalizeProjectName(name: string | undefined): string {
      const fallback = 'Untitled Project';
      if (!name) return fallback;
      const trimmed = name.trim();
      return trimmed || fallback;
    }

    private toDirectoryName(name: string): string {
      const normalized = this.normalizeProjectName(name);
      const sanitized = normalized.replace(/[<>:"\/\\|?*\x00-\x1F]/g, '-');
      const withoutTrailing = sanitized.replace(/[. ]+$/g, '');
      return withoutTrailing || 'Untitled Project';
    }

An `undefined` argument is the `none` case; the JavaScript falsy check
`!name` also catches the empty string. -/

/-- The fallback name `'Untitled Project'`. -/
def untitledProject : String := "Untitled Project"

/-- `String.prototype.trim`: strip whitespace from both ends. -/
def jsTrim (s : String) : String :=
  ⟨((s.data.dropWhile Char.isWhitespace).reverse.dropWhile
      Char.isWhitespace).reverse⟩

/-- `normalizeProjectName(name: string | undefined)`. -/
def normalizeProjectName : Option String → String
  | none => untitledProject
  | some name =>
      if name = "" then untitledProject
      else
        let trimmed := jsTrim name
        if trimmed = "" then untitledProject else trimmed

/-- Membership in the character class `[<>:"\/\\|?*\x00-\x1F]`. -/
def isForbiddenDirChar (c : Char) : Bool :=
  c == '<' || c == '>' || c == ':' || c == '"' || c == '/' || c == '\\' ||
  c == '|' || c == '?' || c == '*' || c.toNat ≤ 0x1F

/-- `replace(/[<>:"\/\\|?*\x00-\x1F]/g, '-')`, one character at a time. -/
def sanitizeDirChar (c : Char) : Char :=
  if isForbiddenDirChar c then '-' else c

/-- Membership in the trailing class `[. ]`. -/
def isDotOrSpace (c : Char) : Bool := c == '.' || c == ' '

/-- The global replacement `replace(/[<>:"\/\\|?*\x00-\x1F]/g, '-')`. -/
def sanitizeName (s : String) : String :=
  ⟨s.data.map sanitizeDirChar⟩

/-- The trailing strip `replace(/[. ]+$/g, '')`. -/
def stripTrailingDotSpace (s : String) : String :=
  ⟨(s.data.reverse.dropWhile isDotOrSpace).reverse⟩

/-- `toDirectoryName(name: string)`. -/
def toDirectoryName (name : String) : String :=
  let normalized := normalizeProjectName (some name)
  let sanitized := sanitizeName normalized
  let withoutTrailing := stripTrailingDotSpace sanitized
  if withoutTrailing = "" then untitledProject else withoutTrailing

theorem head?_dropWhile_false {p : Char → Bool} {l : List Char} {a : Char}
    (h : (l.dropWhile p).head? = some a) : p a = false := by
  induction l with
  | nil => simp at h
  | cons x xs ih =>
      rw [List.dropWhile_cons] at h
      by_cases hx : p x
      · rw [if_pos hx] at h; exact ih h
      · rw [if_neg hx] at h
        simp only [List.head?_cons, Option.some.injEq] at h
        subst h
        simpa using hx

/-- C10: for every project-name input — `undefined` included — the derived
on-disk directory base name is non-empty, contains no forbidden character,
and does not end in a dot or space. -/
theorem toDirectoryName_total_nonempty :
    (∀ name : Option String,
        toDirectoryName (normalizeProjectName name) ≠ "") ∧
    (∀ name : String,
        toDirectoryName name ≠ "" ∧
        (∀ c ∈ (toDirectoryName name).data, isForbiddenDirChar c = false) ∧
        (toDirectoryName name).data.getLast? ≠ some '.' ∧
        (toDirectoryName name).data.getLast? ≠ some ' ') := by
  have hmemStrip : ∀ (s : String) (c : Char),
      c ∈ (stripTrailingDotSpace s).data → c ∈ s.data := by
    intro s c hc
    unfold stripTrailingDotSpace at hc
    simp only [List.mem_reverse] at hc
    have hmem : c ∈ s.data.reverse :=
      (List.dropWhile_sublist isDotOrSpace).mem hc
    rwa [List.mem_reverse] at hmem
  have hlastStrip : ∀ (s : String) (a : Char),
      (stripTrailingDotSpace s).data.getLast? = some a →
        isDotOrSpace a = false := by
    intro s a hlast
    unfold stripTrailingDotSpace at hlast
    simp only [List.getLast?_reverse] at hlast
    exact head?_dropWhile_false hlast
  have hmemSan : ∀ (s : String) (c : Char),
      c ∈ (sanitizeName s).data → isForbiddenDirChar c = false := by
    intro s c hc
    unfold sanitizeName at hc
    rcases List.mem_map.mp hc with ⟨c0, _, rfl⟩
    unfold sanitizeDirChar
    by_cases hf : isForbiddenDirChar c0
    · rw [if_pos hf]; decide
    · rw [if_neg hf]; simpa using hf
  have main : ∀ name : String,
      toDirectoryName name ≠ "" ∧
      (∀ c ∈ (toDirectoryName name).data, isForbiddenDirChar c = false) ∧
      (toDirectoryName name).data.getLast? ≠ some '.' ∧
      (toDirectoryName name).data.getLast? ≠ some ' ' := by
    intro name
    simp only [toDirectoryName]
    by_cases hempty :
        stripTrailingDotSpace (sanitizeName (normalizeProjectName (some name)))
          = ""
    · rw [hempty]
      simp only [if_pos rfl]
      exact ⟨by decide, by decide, by decide, by decide⟩
    · rw [if_neg hempty]
      refine ⟨hempty, ?_, ?_, ?_⟩
      · intro c hc
        exact hmemSan _ c (hmemStrip _ c hc)
      · intro hlast
        have := hlastStrip _ _ hlast
        simp [isDotOrSpace] at this
      · intro hlast
        have := hlastStrip _ _ hlast
        simp [isDotOrSpace] at this
  exact ⟨fun name => (main (normalizeProjectName name)).1, main⟩

/-- Closed instances of `toDirectoryName_total_nonempty`: an `undefined`
name, a whitespace-only name, and a name reduced to nothing by the
trailing-dot strip all yield a non-empty directory base name. -/
theorem toDirectoryName_total_nonempty_witness :
    toDirectoryName (normalizeProjectName none) ≠ "" ∧
    toDirectoryName "   " ≠ "" ∧
    toDirectoryName "..." ≠ "" ∧
    toDirectoryName "..." = untitledProject := by
  refine ⟨toDirectoryName_total_nonempty.1 none,
    (toDirectoryName_total_nonempty.2 "   ").1,
    (toDirectoryName_total_nonempty.2 "...").1, by decide⟩

/-! ## Document store: unique project directories
(`LocalStorage.getUniqueProjectDir`, packages/db/src/local-storage.ts,
lines 804-828, and the directory-handling slice of `updateProject`,
lines 880-940)

    let attempt = 0;
    let candidateName = baseName;
    while (true) {
      const candidatePath = path.join(this.projectsDir, candidateName);
      if (!(await this.pathExists(candidatePath)))
        return { dirName: candidateName, dirPath: candidatePath };
      if (targetDir && path.resolve(candidatePath) === path.resolve(targetDir))
        return { dirName: candidateName, dirPath: candidatePath };
      attempt += 1;
      candidateName = `${baseName} (${attempt})`;
    }

The filesystem is abstracted as the oracle `pathExists`; `path.join a b` is
`a ++ "/" ++ b` and `path.resolve` is the identity (every compared path is
produced by the same join of already-absolute components).  The unbounded
`while (true)` is given explicit fuel; `none` means the loop did not
terminate within the fuel. -/

/-- The candidate name tried at a given attempt number: `baseName` first,
then `baseName (n)`. -/
def candidateDirName (baseName : String) : Nat → String
  | 0 => baseName
  | Nat.succ n => baseName ++ " (" ++ toString (n + 1) ++ ")"

def getUniqueProjectDirLoop (pathExists : String → Bool) (projectsDir : String)
    (targetDir : Option String) (baseName : String) :
    Nat → Nat → Option (String × String)
  | _, 0 => none
  | attempt, Nat.succ fuel =>
      let candidateName := candidateDirName baseName attempt
      let candidatePath := projectsDir ++ "/" ++ candidateName
      if pathExists candidatePath = false then some (candidateName, candidatePath)
      else if targetDir = some candidatePath then
        some (candidateName, candidatePath)
      else
        getUniqueProjectDirLoop pathExists projectsDir targetDir baseName
          (attempt + 1) fuel

/-- `getUniqueProjectDir(baseName, currentProjectId?)`; `targetDir` is the
directory currently owned by the project being updated, when any. -/
def getUniqueProjectDir (pathExists : String → Bool) (projectsDir : String)
    (targetDir : Option String) (baseName : String) (fuel : Nat) :
    Option (String × String) :=
  getUniqueProjectDirLoop pathExists projectsDir targetDir baseName 0 fuel

/-- Result of the directory-handling slice of `updateProject`: the resolved
directory and whether `fs.rename` was performed
(`path.resolve(currentDir) !== path.resolve(targetDir)`). -/
structure RenameOutcome where
  dirName : String
  dirPath : String
  renamed : Bool
deriving DecidableEq, Repr

/-- The directory-handling slice of `updateProject`: derive the target base
name from the new project name, resolve a unique directory treating the
project's current directory as acceptable, and rename only when the
resolved directory differs from the current one. -/
def updateProjectDir (pathExists : String → Bool)
    (projectsDir currentDir newName : String) (fuel : Nat) :
    Option RenameOutcome :=
  let targetDirName := toDirectoryName newName
  match getUniqueProjectDir pathExists projectsDir (some currentDir)
      targetDirName fuel with
  | none => none
  | some (dirName, dirPath) =>
      some { dirName := dirName, dirPath := dirPath,
             renamed := currentDir ≠ dirPath }

/-- C5: renaming project `"Foo"` (directory `/projects/Foo`) to `"Bar"`
while `/projects/Bar` exists and belongs to another project resolves to the
fresh directory `Bar (1)` and performs a rename; renaming the same project
(now at `/projects/Bar (1)`) to `"Bar"` again resolves to its own current
directory — the occupied candidate equal to the project's own directory is
accepted — and performs no rename. -/
theorem updateProject_rename_collision :
    updateProjectDir
        (fun p => p == "/projects/Foo" || p == "/projects/Bar")
        "/projects" "/projects/Foo" "Bar" 10
      = some { dirName := "Bar (1)", dirPath := "/projects/Bar (1)",
               renamed := true } ∧
    updateProjectDir
        (fun p => p == "/projects/Bar" || p == "/projects/Bar (1)")
        "/projects" "/projects/Bar (1)" "Bar" 10
      = some { dirName := "Bar (1)", dirPath := "/projects/Bar (1)",
               renamed := false } := by
  constructor <;> decide

/-! ## Conversation documents
(packages/db/src/local-storage.ts: `LocalConversationMessage`,
`LocalConversation`, `LocalConversationFile`, lines 162-190;
`conversationMessageSchema` / `conversationFileSchema`, lines 334-377;
`normalizeStoredMessage`, lines 3840-3861; `readConversationFile`,
lines 3863-3928; `writeConversationFile`, lines 3930-3948)

`unknown[]` payloads (context, parts, checkpoints, suggestions) are carried
as opaque `String` lists; the `unknown` snapshot as an optional `String`.
A raw record (the result of `JSON.parse` before validation) carries every
field as an `Option`: `none` is an absent field or one of the wrong
type. -/

/-- `LocalConversationMessageRole = 'user' | 'assistant' | 'system'`. -/
inductive MessageRole where
  | user
  | assistant
  | system
deriving DecidableEq, Repr

/-- `LocalConversationMessage`. -/
structure LocalConversationMessage where
  id : String
  conversationId : String
  content : String
  createdAt : String
  role : MessageRole
  context : List String
  parts : List String
  checkpoints : List String
  applied : Option Bool
  commitOid : Option String
  snapshots : Option String
deriving DecidableEq, Repr

/-- `LocalConversation` (the metadata slice of a conversation file). -/
structure LocalConversation where
  id : String
  projectId : String
  title : Option String
  createdAt : String
  updatedAt : String
  suggestions : List String
deriving DecidableEq, Repr

/-- `LocalConversationFile extends LocalConversation` with `version` and
the embedded message list. -/
structure LocalConversationFile where
  version : Nat
  id : String
  projectId : String
  title : Option String
  createdAt : String
  updatedAt : String
  suggestions : List String
  messages : List LocalConversationMessage
deriving DecidableEq, Repr

/-- `CONVERSATION_FILE_VERSION = 1`. -/
def conversationFileVersion : Nat := 1

/-- A message record as `JSON.parse` yields it, before validation. -/
structure RawMessageRecord where
  id : Option String
  conversationId : Option String
  content : Option String
  createdAt : Option String
  role : Option String
  context : Option (List String)
  parts : Option (List String)
  checkpoints : Option (List String)
  applied : Option Bool
  commitOid : Option String
  snapshots : Option String
deriving DecidableEq, Repr

/-- A conversation file as `JSON.parse` yields it, before validation.
`displayName` is the legacy title field consulted by the migration;
`version` is `some v` exactly when `typeof parsed.version === 'number'`. -/
structure RawConversationRecord where
  version : Option Int
  id : Option String
  projectId : Option String
  title : Option String
  displayName : Option String
  createdAt : Option String
  updatedAt : Option String
  suggestions : Option (List String)
  messages : Option (List RawMessageRecord)
deriving DecidableEq, Repr

/-- `z.enum(['user', 'assistant', 'system'])`. -/
def parseMessageRole : Option String → Option MessageRole
  | some "user" => some .user
  | some "assistant" => some .assistant
  | some "system" => some .system
  | _ => none

/-- `conversationMessageSchema.parse` followed by the `?? []` fills of
`normalizeStoredMessage` / the file schema's transform: the required
fields must be present, the unknown-array fields default to `[]`, the
optional fields pass through.  `none` models a thrown `ZodError`. -/
def parseConversationMessage (raw : RawMessageRecord) :
    Option LocalConversationMessage := do
  let id ← raw.id
  let conversationId ← raw.conversationId
  let content ← raw.content
  let createdAt ← raw.createdAt
  let role ← parseMessageRole raw.role
  pure { id := id, conversationId := conversationId, content := content,
         createdAt := createdAt, role := role,
         context := raw.context.getD [], parts := raw.parts.getD [],
         checkpoints := raw.checkpoints.getD [],
         applied := raw.applied, commitOid := raw.commitOid,
         snapshots := raw.snapshots }

/-- `normalizeStoredMessage(conversationId, raw)`: fill a missing id with a
generated one, a missing conversation id with the surrounding one, a
missing creation time with now, then validate. -/
def normalizeStoredMessage (conversationId generatedId nowIso : String)
    (raw : RawMessageRecord) : Option LocalConversationMessage :=
  parseConversationMessage
    { raw with
      id := some (raw.id.getD generatedId),
      conversationId := some (raw.conversationId.getD conversationId),
      createdAt := some (raw.createdAt.getD nowIso) }

/-- `conversationFileSchema.parse` with its transform: required fields must
be present, `version` defaults to the current constant and must be a
positive integer, `title` defaults to `null`, list fields default to `[]`,
messages are validated individually.  `none` models a thrown `ZodError`. -/
def parseConversationFile (raw : RawConversationRecord) :
    Option LocalConversationFile :=
  match raw.id, raw.projectId, raw.createdAt, raw.updatedAt with
  | some id, some projectId, some createdAt, some updatedAt =>
      let v : Int := raw.version.getD (Int.ofNat conversationFileVersion)
      if v ≤ 0 then none
      else
        match (raw.messages.getD []).mapM parseConversationMessage with
        | none => none
        | some messages =>
            some { version := v.toNat, id := id, projectId := projectId,
                   title := raw.title, createdAt := createdAt,
                   updatedAt := updatedAt,
                   suggestions := raw.suggestions.getD [],
                   messages := messages }
  | _, _, _, _ => none

/-- The tail of `readConversationFile`'s schema branch: a successfully
validated document whose version differs from the current constant is
stamped and rewritten; otherwise it is returned with no rewrite. -/
def readParsedConversation :
    Option LocalConversationFile → Option (LocalConversationFile × Bool)
  | none => none
  | some normalized =>
      if normalized.version ≠ conversationFileVersion then
        some ({ normalized with version := conversationFileVersion }, true)
      else
        some (normalized, false)

/-- `readConversationFile(projectDir, conversationId)` on a file that
exists and was parsed by `JSON.parse`: the returned document paired with
whether `writeConversationFile` rewrote the file (migrate-on-read).
`projectDirBase` is `path.basename(projectDir)`; `genId` supplies the value
of `generateId()` for the i-th legacy message; `none` models a thrown
error. -/
def readConversationFile (conversationId projectDirBase nowIso : String)
    (genId : Nat → String) (raw : RawConversationRecord) :
    Option (LocalConversationFile × Bool) :=
  match raw.version with
  | none =>
      match (raw.messages.getD []).enum.mapM
          (fun p => normalizeStoredMessage conversationId (genId p.1) nowIso p.2) with
      | none => none
      | some legacyMessages =>
          some
            ({ version := conversationFileVersion,
               id := raw.id.getD conversationId,
               projectId := raw.projectId.getD projectDirBase,
               title := match raw.title with
                        | some t => some t
                        | none => raw.displayName,
               createdAt := raw.createdAt.getD nowIso,
               updatedAt := raw.updatedAt.getD nowIso,
               suggestions := raw.suggestions.getD [],
               messages := legacyMessages }, true)
  | some _ => readParsedConversation (parseConversationFile raw)

/-- The serialization of a message by `writeConversationFile`'s payload
(`JSON.stringify` and a later `JSON.parse` round-trip every present
field). -/
def rawOfConversationMessage (m : LocalConversationMessage) :
    RawMessageRecord :=
  { id := some m.id, conversationId := some m.conversationId,
    content := some m.content, createdAt := some m.createdAt,
    role := some (match m.role with
                  | .user => "user"
                  | .assistant => "assistant"
                  | .system => "system"),
    context := some m.context, parts := some m.parts,
    checkpoints := some m.checkpoints, applied := m.applied,
    commitOid := m.commitOid, snapshots := m.snapshots }

/-- The serialization of a whole conversation document by
`writeConversationFile` as a later read re-parses it. -/
def rawOfConversationFile (f : LocalConversationFile) :
    RawConversationRecord :=
  { version := some (Int.ofNat f.version), id := some f.id,
    projectId := some f.projectId, title := f.title, displayName := none,
    createdAt := some f.createdAt, updatedAt := some f.updatedAt,
    suggestions := some f.suggestions,
    messages := some (f.messages.map rawOfConversationMessage) }

theorem parseConversationMessage_roundtrip (m : LocalConversationMessage) :
    parseConversationMessage (rawOfConversationMessage m) = some m := by
  cases m with
  | mk id conversationId content createdAt role context parts checkpoints
      applied commitOid snapshots =>
      cases role <;>
        simp [parseConversationMessage, rawOfConversationMessage,
          parseMessageRole, Option.bind]

theorem mapM_parse_rawOfConversationMessage (l : List LocalConversationMessage) :
    (l.map rawOfConversationMessage).mapM parseConversationMessage = some l := by
  induction l with
  | nil => rfl
  | cons m ms ih =>
      rw [List.map_cons, List.mapM_cons, parseConversationMessage_roundtrip m, ih]
      rfl

theorem parseConversationFile_roundtrip (f : LocalConversationFile)
    (hv : f.version = conversationFileVersion) :
    parseConversationFile (rawOfConversationFile f) = some f := by
  cases f with
  | mk version id projectId title createdAt updatedAt suggestions messages =>
      simp only at hv
      subst hv
      show (let v : Int := Int.ofNat conversationFileVersion
            if v ≤ 0 then (none : Option LocalConversationFile)
            else
              match (List.map rawOfConversationMessage messages).mapM
                  parseConversationMessage with
              | none => none
              | some msgs =>
                  some ({ version := v.toNat, id := id,
                          projectId := projectId, title := title,
                          createdAt := createdAt, updatedAt := updatedAt,
                          suggestions := suggestions, messages := msgs }
                    : LocalConversationFile))
          = some ({ version := conversationFileVersion, id := id,
                    projectId := projectId, title := title,
                    createdAt := createdAt, updatedAt := updatedAt,
                    suggestions := suggestions, messages := messages }
              : LocalConversationFile)
      rw [mapM_parse_rawOfConversationMessage]
      simp [conversationFileVersion]

/-- C6: migrate-on-read of conversations is idempotent.  Reading a
conversation file with no numeric `version` field yields a document stamped
with the current version constant together with an immediate rewrite to
disk; re-reading the rewritten file returns the same document unchanged and
performs no further rewrite. -/
theorem readConversationFile_migration_idempotent
    (raw : RawConversationRecord)
    (conversationId projectDirBase nowIso nowIso2 : String)
    (genId genId2 : Nat → String)
    (upgraded : LocalConversationFile) (written : Bool)
    (hlegacy : raw.version = none)
    (hread : readConversationFile conversationId projectDirBase nowIso genId raw
        = some (upgraded, written)) :
    written = true ∧
    upgraded.version = conversationFileVersion ∧
    readConversationFile conversationId projectDirBase nowIso2 genId2
        (rawOfConversationFile upgraded)
      = some (upgraded, false) := by
  unfold readConversationFile at hread
  rw [hlegacy] at hread
  rcases hmsgs : (raw.messages.getD []).enum.mapM
      (fun p => normalizeStoredMessage conversationId (genId p.1) nowIso p.2) with
      _ | legacyMessages
  · rw [hmsgs] at hread
    simp at hread
  · rw [hmsgs] at hread
    simp only [Option.some.injEq, Prod.mk.injEq] at hread
    obtain ⟨hup, hwr⟩ := hread
    have hver : upgraded.version = conversationFileVersion := by
      rw [← hup]
    refine ⟨hwr.symm, hver, ?_⟩
    show readParsedConversation
        (parseConversationFile (rawOfConversationFile upgraded))
      = some (upgraded, false)
    rw [parseConversationFile_roundtrip upgraded hver]
    unfold readParsedConversation
    simp [hver]

/-- Closed instance of `readConversationFile_migration_idempotent`: a
version-less legacy conversation file with one partially-specified message
is upgraded once and re-reads clean. -/
theorem readConversationFile_migration_idempotent_witness :
    readConversationFile "c1" "proj" "t1" (fun i => "gen" ++ toString i)
        (rawOfConversationFile
          { version := 1, id := "c1", projectId := "proj",
            title := some "Legacy", createdAt := "t0", updatedAt := "t0",
            suggestions := [],
            messages := [{ id := "gen0", conversationId := "c1",
                           content := "hi", createdAt := "t0", role := .user,
                           context := [], parts := [], checkpoints := [],
                           applied := none, commitOid := none,
                           snapshots := none }] })
      = some ({ version := 1, id := "c1", projectId := "proj",
                title := some "Legacy", createdAt := "t0", updatedAt := "t0",
                suggestions := [],
                messages := [{ id := "gen0", conversationId := "c1",
                               content := "hi", createdAt := "t0",
                               role := .user, context := [], parts := [],
                               checkpoints := [], applied := none,
                               commitOid := none, snapshots := none }] },
              false) :=
  (readConversationFile_migration_idempotent
    { version := none, id := some "c1", projectId := none, title := none,
      displayName := some "Legacy", createdAt := none, updatedAt := none,
      suggestions := none,
      messages := some [{ id := none, conversationId := none,
                          content := some "hi", createdAt := none,
                          role := some "user", context := none, parts := none,
                          checkpoints := none, applied := none,
                          commitOid := none, snapshots := none }] }
    "c1" "proj" "t0" "t1" (fun i => "gen" ++ toString i)
    (fun i => "gen" ++ toString i) _ _ rfl rfl).2.2

/-! ## Project, canvas and frame documents
(packages/db/src/local-storage.ts: interfaces at lines 102-160)

Numeric fields (`scale`, positions, dimensions) play no arithmetic role in
the claims and are carried as `Int`. -/

/-- `LocalBrandState` (colors and fonts as opaque payloads). -/
structure LocalBrandState where
  colors : List String
  fonts : List String
  updatedAt : String
deriving DecidableEq, Repr

/-- `LocalProject` (the `meta.json` document). -/
structure LocalProject where
  id : String
  name : String
  description : Option String
  tags : List String
  createdAt : String
  updatedAt : String
  previewImgUrl : Option String
  previewImgPath : Option String
  sandboxId : Option String
  sandboxUrl : Option String
  version : Nat
  brand : LocalBrandState
deriving DecidableEq, Repr

/-- `{ x, y }`. -/
structure PlanePosition where
  x : Int
  y : Int
deriving DecidableEq, Repr

/-- `{ width, height }`. -/
structure FrameDimension where
  width : Int
  height : Int
deriving DecidableEq, Repr

/-- `LocalFrame` (embedded in its canvas document). -/
structure LocalFrame where
  id : String
  projectId : String
  canvasId : String
  branchId : String
  name : String
  position : PlanePosition
  dimension : FrameDimension
  url : String
  createdAt : String
  updatedAt : String
deriving DecidableEq, Repr

/-- `LocalCanvasState`. -/
structure LocalCanvasState where
  scale : Int
  position : PlanePosition
deriving DecidableEq, Repr

/-- `LocalCanvas` (a `canvases/<id>.json` document). -/
structure LocalCanvas where
  id : String
  projectId : String
  name : String
  createdAt : String
  updatedAt : String
  frames : List LocalFrame
  state : LocalCanvasState
deriving DecidableEq, Repr

/-! ## Document-store read operations and `createFrame`
(packages/db/src/local-storage.ts: `getProjectDir` / `requireProjectDir`
at lines 722-739, `getProject` at lines 864-879, `getCanvas` at lines
3724-3754, `createFrame` at lines 1248-1278, `listConversations` at lines
4021-4060, `listConversationMessages` at lines 4172-4199) and the chat
message router's `getAll`
(apps/web/client/src/server/api/routers/chat/message.ts).

The filesystem a read would see is carried as association lists; an absent
key is a missing or unparseable file (both are returned as null by the
source, the permission-error throw path is outside these claims).
Conversation files are carried in current-version shape, as
`readConversationFile` returns them. -/

/-- The document store's visible state. -/
structure StoreState where
  projectDirIndex : List (String × String)
  metas : List (String × LocalProject)
  canvasFiles : List ((String × String) × LocalCanvas)
  conversationFiles : List ((String × String) × LocalConversationFile)
deriving Repr

/-- `getProjectDir(projectId)`: the cached index entry (a cache miss
rescans the projects root and rebuilds the same index, leaving the lookup
unchanged in this static model). -/
def getProjectDir (s : StoreState) (projectId : String) : Option String :=
  s.projectDirIndex.lookup projectId

/-- `getProject(projectId)`: null when no directory is indexed for the id,
or when its `meta.json` is missing or fails schema validation. -/
def getProject (s : StoreState) (projectId : String) : Option LocalProject :=
  match getProjectDir s projectId with
  | none => none
  | some dir => s.metas.lookup dir

/-- `getCanvas(projectId, canvasId)`: null when no directory is indexed for
the project or reading `canvases/<canvasId>.json` fails with a
non-permission error. -/
def getCanvas (s : StoreState) (projectId canvasId : String) :
    Option LocalCanvas :=
  match getProjectDir s projectId with
  | none => none
  | some dir => s.canvasFiles.lookup (dir, canvasId)

/-- `requireProjectDir(projectId)`: throws when no directory is indexed. -/
def requireProjectDir (s : StoreState) (projectId : String) :
    Except String String :=
  match getProjectDir s projectId with
  | none => Except.error ("Project directory not found for id " ++ projectId)
  | some dir => Except.ok dir

/-- `Omit<LocalFrame, 'id' | 'createdAt' | 'updatedAt'>`. -/
structure NewLocalFrame where
  projectId : String
  canvasId : String
  branchId : String
  name : String
  position : PlanePosition
  dimension : FrameDimension
  url : String
deriving DecidableEq, Repr

/-- Overwrite of one canvas file by `writeCanvasFile`. -/
def setCanvasFile (entries : List ((String × String) × LocalCanvas))
    (key : String × String) (value : LocalCanvas) :
    List ((String × String) × LocalCanvas) :=
  entries.map (fun e => if e.1 == key then (key, value) else e)

/-- `createFrame(frame)`: requires the project directory, throws
`Canvas <canvasId> not found for project <projectId>` when the parent
canvas does not exist, otherwise appends the stamped frame to the canvas's
embedded frame list and writes the canvas file back. -/
def createFrame (s : StoreState) (frame : NewLocalFrame)
    (genId nowIso : String) : Except String (LocalFrame × StoreState) :=
  match requireProjectDir s frame.projectId with
  | Except.error e => Except.error e
  | Except.ok projectDir =>
      match getCanvas s frame.projectId frame.canvasId with
      | none =>
          Except.error ("Canvas " ++ frame.canvasId ++ " not found for project "
            ++ frame.projectId)
      | some canvas =>
          let fullFrame : LocalFrame :=
            { id := genId, projectId := frame.projectId,
              canvasId := frame.canvasId, branchId := frame.branchId,
              name := frame.name, position := frame.position,
              dimension := frame.dimension, url := frame.url,
              createdAt := nowIso, updatedAt := nowIso }
          let updatedCanvas : LocalCanvas :=
            { canvas with updatedAt := nowIso,
                          frames := canvas.frames ++ [fullFrame] }
          let newCanvasFiles :=
            setCanvasFile s.canvasFiles (projectDir, canvas.id) updatedCanvas
          Except.ok (fullFrame, { s with canvasFiles := newCanvasFiles })

/-- `toConversationMetadata`. -/
def toConversationMetadata (f : LocalConversationFile) : LocalConversation :=
  { id := f.id, projectId := f.projectId, title := f.title,
    createdAt := f.createdAt, updatedAt := f.updatedAt,
    suggestions := f.suggestions }

/-- `listConversations(projectId)`: `[]` when no directory is indexed;
otherwise every conversation file of the project's `conversations`
directory is reduced to its metadata and the list is sorted by
`(a, b) => new Date(b.updatedAt).getTime() - new Date(a.updatedAt).getTime()`
— `updatedAt` descending. `dateTime` stands for `new Date(s).getTime()`;
the comparator sort is modelled as a stable merge sort with the matching
order. -/
def listConversations (dateTime : String → Int) (s : StoreState)
    (projectId : String) : List LocalConversation :=
  match getProjectDir s projectId with
  | none => []
  | some dir =>
      ((s.conversationFiles.filter (fun e => e.1.1 == dir)).map
          (fun e => toConversationMetadata e.2)).mergeSort
        (fun a b => decide (dateTime b.updatedAt ≤ dateTime a.updatedAt))

/-- `listConversationMessages(projectId, conversationId)`: `[]` when the
project directory or the conversation file is missing, otherwise the
stored message list exactly as the file holds it — no sort. -/
def listConversationMessages (s : StoreState)
    (projectId conversationId : String) : List LocalConversationMessage :=
  match getProjectDir s projectId with
  | none => []
  | some dir =>
      match s.conversationFiles.lookup (dir, conversationId) with
      | none => []
      | some conversation => conversation.messages

/-- `messageRouter.getAll`: fetch through `listConversationMessages`, then
`.sort((a, b) => new Date(a.createdAt).getTime() - new Date(b.createdAt).getTime())`
— `createdAt` ascending — before mapping to chat messages (the final
per-element mapping preserves order and is elided). -/
def messageRouterGetAll (dateTime : String → Int) (s : StoreState)
    (projectId conversationId : String) : List LocalConversationMessage :=
  (listConversationMessages s projectId conversationId).mergeSort
    (fun a b => decide (dateTime a.createdAt ≤ dateTime b.createdAt))

theorem pairwise_mergeSort_decide_le {α : Type} (key : α → Int) (l : List α) :
    List.Pairwise (fun a b => key a ≤ key b)
      (l.mergeSort (fun a b => decide (key a ≤ key b))) := by
  have h := @List.sorted_mergeSort α
    (fun a b => decide (key a ≤ key b))
    (fun a b c hab hbc => by
      simp only [decide_eq_true_eq] at hab hbc ⊢
      omega)
    (fun a b => by
      simp only [Bool.or_eq_true, decide_eq_true_eq]
      omega)
    l
  exact h.imp (fun hab => by simpa using hab)

theorem pairwise_mergeSort_decide_ge {α : Type} (key : α → Int) (l : List α) :
    List.Pairwise (fun a b => key b ≤ key a)
      (l.mergeSort (fun a b => decide (key b ≤ key a))) := by
  have h := @List.sorted_mergeSort α
    (fun a b => decide (key b ≤ key a))
    (fun a b c hab hbc => by
      simp only [decide_eq_true_eq] at hab hbc ⊢
      omega)
    (fun a b => by
      simp only [Bool.or_eq_true, decide_eq_true_eq]
      omega)
    l
  exact h.imp (fun hab => by simpa using hab)

/-! ### Sample store for the counterexample and witnesses -/

/-- A message of the sample conversation, with a given id and timestamp. -/
def sampleMessage (id createdAt : String) : LocalConversationMessage :=
  { id := id, conversationId := "c1", content := "m", createdAt := createdAt,
    role := .user, context := [], parts := [], checkpoints := [],
    applied := none, commitOid := none, snapshots := none }

/-- A conversation file whose stored messages are NOT in `createdAt`
order: the later message (`createdAt = "b"`) is stored first. -/
def sampleConversationFile : LocalConversationFile :=
  { version := 1, id := "c1", projectId := "p1", title := none,
    createdAt := "a", updatedAt := "a", suggestions := [],
    messages := [sampleMessage "m2" "b", sampleMessage "m1" "a"] }

/-- A store with one project `p1` and the out-of-order conversation. -/
def sampleStore : StoreState :=
  { projectDirIndex := [("p1", "/projects/P1")],
    metas := [],
    canvasFiles := [],
    conversationFiles := [(("/projects/P1", "c1"), sampleConversationFile)] }

/-- The timestamp interpretation for the sample: `"a"` is earlier. -/
def sampleDateTime (t : String) : Int := if t = "a" then 0 else 1

/-- The original form of C7 is false at `sampleStore`:
`listConversationMessages` returns the stored messages unsorted, so its
result is not ascending in `createdAt`. -/
theorem listConversationMessages_unsorted_counterexample :
    ¬ List.Pairwise
        (fun a b : LocalConversationMessage =>
          sampleDateTime a.createdAt ≤ sampleDateTime b.createdAt)
        (listConversationMessages sampleStore "p1" "c1") := by
  decide

/-- C7 (amended): listing a project's conversations returns them sorted by
`updatedAt` descending; the storage-level `listConversationMessages`
returns the stored message list as is, and it is the chat message router's
`getAll` that returns the messages sorted by `createdAt` ascending. -/
theorem listing_sort_orders (dateTime : String → Int) (s : StoreState)
    (projectId conversationId : String) :
    List.Pairwise
        (fun a b : LocalConversation =>
          dateTime b.updatedAt ≤ dateTime a.updatedAt)
        (listConversations dateTime s projectId) ∧
    List.Pairwise
        (fun a b : LocalConversationMessage =>
          dateTime a.createdAt ≤ dateTime b.createdAt)
        (messageRouterGetAll dateTime s projectId conversationId) ∧
    (∀ dir conversation,
        getProjectDir s projectId = some dir →
        s.conversationFiles.lookup (dir, conversationId) = some conversation →
        listConversationMessages s projectId conversationId
          = conversation.messages) := by
  refine ⟨?_, ?_, ?_⟩
  · unfold listConversations
    rcases getProjectDir s projectId with _ | dir
    · simp
    · exact pairwise_mergeSort_decide_ge
        (fun c : LocalConversation => dateTime c.updatedAt) _
  · unfold messageRouterGetAll
    exact pairwise_mergeSort_decide_le
      (fun m : LocalConversationMessage => dateTime m.createdAt) _
  · intro dir conversation hdir hconv
    unfold listConversationMessages
    rw [hdir]
    show (match s.conversationFiles.lookup (dir, conversationId) with
          | none => ([] : List LocalConversationMessage)
          | some c => c.messages)
        = conversation.messages
    rw [hconv]

/-- Closed instance of `listing_sort_orders` at the sample store. -/
theorem listing_sort_orders_witness :
    listConversationMessages sampleStore "p1" "c1"
      = sampleConversationFile.messages ∧
    List.Pairwise
        (fun a b : LocalConversationMessage =>
          sampleDateTime a.createdAt ≤ sampleDateTime b.createdAt)
        (messageRouterGetAll sampleDateTime sampleStore "p1" "c1") :=
  ⟨(listing_sort_orders sampleDateTime sampleStore "p1" "c1").2.2
      "/projects/P1" sampleConversationFile rfl rfl,
    (listing_sort_orders sampleDateTime sampleStore "p1" "c1").2.1⟩

/-- C9: read operations on an id with no backing file return null rather
than throwing — `getProject` and `getCanvas` yield `none` for an unindexed
project id — whereas `createFrame` for a canvas id whose canvas file does
not exist throws an error naming the missing canvas and its project. -/
theorem notfound_null_reads_createFrame_throws
    (s : StoreState) (projectId canvasId : String)
    (frame : NewLocalFrame) (genId nowIso dir : String)
    (hmissing : s.projectDirIndex.lookup projectId = none)
    (hdir : s.projectDirIndex.lookup frame.projectId = some dir)
    (hnocanvas : s.canvasFiles.lookup (dir, frame.canvasId) = none) :
    getProject s projectId = none ∧
    getCanvas s projectId canvasId = none ∧
    createFrame s frame genId nowIso
      = Except.error ("Canvas " ++ frame.canvasId ++ " not found for project "
          ++ frame.projectId) := by
  have h1 : requireProjectDir s frame.projectId = Except.ok dir := by
    unfold requireProjectDir getProjectDir
    rw [hdir]
  have h2 : getCanvas s frame.projectId frame.canvasId = none := by
    unfold getCanvas getProjectDir
    rw [hdir]
    exact hnocanvas
  refine ⟨?_, ?_, ?_⟩
  · unfold getProject getProjectDir
    rw [hmissing]
  · unfold getCanvas getProjectDir
    rw [hmissing]
  · simp only [createFrame, h1, h2]

/-- Closed instance of `notfound_null_reads_createFrame_throws`: a store
holding only project `p1` with no canvases. -/
theorem notfound_null_reads_createFrame_throws_witness :
    getProject sampleStore "ghost" = none ∧
    getCanvas sampleStore "ghost" "c9" = none ∧
    createFrame sampleStore
        { projectId := "p1", canvasId := "c9", branchId := "b1",
          name := "Frame", position := { x := 0, y := 0 },
          dimension := { width := 1, height := 1 }, url := "/" }
        "f1" "t0"
      = Except.error ("Canvas " ++ "c9" ++ " not found for project "
          ++ "p1") :=
  notfound_null_reads_createFrame_throws sampleStore "ghost" "c9"
    { projectId := "p1", canvasId := "c9", branchId := "b1",
      name := "Frame", position := { x := 0, y := 0 },
      dimension := { width := 1, height := 1 }, url := "/" }
    "f1" "t0" "/projects/P1" rfl rfl rfl

end Spec2Proof
